import Mathlib

/-
Formal model of the segment-timed media assembly pipeline:
script segmentation and proportional duration budgeting
(video_fetcher.get_clips_for_script), per-segment clip fetch and
gap-filling (video_fetcher.fetch_clip and the fallback loop),
provider candidate selection (video_fetcher.get_background_video),
duration reconciliation and output writing (video_engine.render_final_video),
caption overlay generation (video_engine._generate_subtitle_clips and
its Pillow fallback), and narration input validation
(tts_engine.generate_audio).

Python strings are modelled as lists of characters, floats as rationals,
network and filesystem effects as explicit oracles passed in as arguments.
-/

namespace FVP

/-- Python strings are modelled as lists of characters. -/
abbrev Str := List Char

/-- Whitespace test backing Python str.split, str.strip and the regex class \s. -/
def isWs (c : Char) : Bool := c.isWhitespace

/-- script.replace("\n", " "): replace every newline by a space. -/
def nlToSpace (s : Str) : Str := s.map (fun c => if c = '\n' then ' ' else c)

/-- Python str.strip(): drop leading and trailing whitespace. -/
def pystrip (s : Str) : Str := ((s.dropWhile isWs).reverse.dropWhile isWs).reverse

/-- Helper for Python str.split() with no separator: split on runs of
whitespace, producing no empty words.  The accumulator holds the current
word reversed. -/
def pysplitAux : Str → Str → List Str
  | [], acc => if acc.isEmpty then [] else [acc.reverse]
  | c :: rest, acc =>
    if isWs c then
      if acc.isEmpty then pysplitAux rest [] else acc.reverse :: pysplitAux rest []
    else pysplitAux rest (c :: acc)

/-- Python str.split() with no separator. -/
def pysplit (s : Str) : List Str := pysplitAux s []

/-- " ".join(l): interleave a single space between the given strings. -/
def joinSpace : List Str → Str
  | [] => []
  | [s] => s
  | s :: t :: rest => s ++ ' ' :: joinSpace (t :: rest)

/-- Number of words of a segment text (len(text.split())). -/
def wordCount (s : Str) : ℕ := (pysplit s).length

/-- Does the given reversed accumulator end (in source order) with
sentence-terminal punctuation?  Mirrors the regex lookbehind (?<=[.!?]). -/
def endsSentence : Str → Bool
  | [] => false
  | p :: _ => p = '.' || p = '!' || p = '?'

/-- re.split(r'(?<=[.!?])\s+', s): cut s at every maximal whitespace run
that is immediately preceded by one of . ! ?, consuming the run.
The first argument is true while consuming a delimiter run; the
accumulator holds the current piece reversed. -/
def splitSentencesAux : Bool → Str → Str → List Str
  | _, [], acc => [acc.reverse]
  | true, c :: rest, acc =>
    if isWs c then splitSentencesAux true rest acc
    else splitSentencesAux false rest [c]
  | false, c :: rest, acc =>
    if isWs c && endsSentence acc then acc.reverse :: splitSentencesAux true rest []
    else splitSentencesAux false rest (c :: acc)

/-- raw_sentences of video_fetcher.get_clips_for_script line 95. -/
def rawSentences (s : Str) : List Str := splitSentencesAux false s []

/-- script_clean of get_clips_for_script line 94. -/
def scriptClean (script : Str) : Str := pystrip (nlToSpace script)

/-- sentences of get_clips_for_script lines 96-99: strip each raw piece,
keep those longer than 2 characters; if nothing survives, fall back to
the whole cleaned script, or to "..." when that is empty. -/
def sentencesOf (script : Str) : List Str :=
  let clean := scriptClean script
  let kept := ((rawSentences clean).map pystrip).filter (fun s => 2 < s.length)
  if kept.isEmpty then (if clean.isEmpty then [['.', '.', '.']] else [clean]) else kept

/-- total_words of get_clips_for_script line 102: max(len(script.split()), 1). -/
def totalWords (script : Str) : ℕ := max (pysplit script).length 1

/-- words_per_sec of line 103: total_words / total_duration if positive, else 3. -/
def wordsPerSec (script : Str) (total_duration : ℚ) : ℚ :=
  if 0 < total_duration then (totalWords script : ℚ) / total_duration else 3

/-- target_segment_words of line 104: words_per_sec * 8. -/
def targetSegmentWords (script : Str) (total_duration : ℚ) : ℚ :=
  wordsPerSec script total_duration * 8

/-- The sentence-grouping loop of get_clips_for_script lines 106-116:
state is (segments so far, current group, current word count), each
sentence is appended to the current group, and the group is flushed as
a space-joined segment once its word count reaches the target. -/
def segLoopAux (target : ℚ) : List Str → List Str → List Str → ℕ → List Str × List Str
  | [], segments, currSeg, _ => (segments, currSeg)
  | s :: rest, segments, currSeg, currWords =>
    let currSeg' := currSeg ++ [s]
    let currWords' := currWords + wordCount s
    if target ≤ (currWords' : ℚ) then
      segLoopAux target rest (segments ++ [joinSpace currSeg']) [] 0
    else
      segLoopAux target rest segments currSeg' currWords'

/-- Lines 106-121 of get_clips_for_script: run the grouping loop, then
merge a leftover group into the last segment (or make it the only
segment when no segment was flushed). -/
def groupSegments (target : ℚ) (sentences : List Str) : List Str :=
  match segLoopAux target sentences [] [] 0 with
  | (segments, currSeg) =>
    if currSeg.isEmpty then segments
    else if hs : segments = [] then [joinSpace currSeg]
    else segments.dropLast ++ [segments.getLast hs ++ ' ' :: joinSpace currSeg]

/-- The full segment list produced for a script (lines 93-121). -/
def segmentsOf (script : Str) (total_duration : ℚ) : List Str :=
  groupSegments (targetSegmentWords script total_duration) (sentencesOf script)

/-- sent_duration of fetch_clip line 127:
(len(text.split()) / total_words) * total_duration. -/
def sentDuration (tw : ℕ) (total_duration : ℚ) (text : Str) : ℚ :=
  (wordCount text : ℚ) / (tw : ℚ) * total_duration

/-- The allotted durations of all segments of a script, in order. -/
def allottedDurations (script : Str) (total_duration : ℚ) : List ℚ :=
  (segmentsOf script total_duration).map
    (sentDuration (totalWords script) total_duration)

/-- The search keyword of fetch_clip lines 129-130: the base keyword, a
space, and the first two words of the segment, stripped. -/
def fetchKeyword (base_keyword text : Str) : Str :=
  pystrip (base_keyword ++ ' ' :: joinSpace ((pysplit text).take 2))

/-- The per-segment fetch outcome dict of fetch_clip: path is none when the
fetch raised and the segment is handed to gap-filling. -/
structure FetchResult where
  path : Option Str
  duration : ℚ
  index : ℕ
deriving DecidableEq, Repr

/-- fetch_clip of get_clips_for_script lines 125-140.  The network is the
oracle `net`: `net n kw` is the outcome of request number n (per call)
for keyword kw, none meaning the request raised.  Besides the result
dict, the list of network requests actually issued is returned: the body
makes exactly one request, with no retry and no fallback keyword. -/
def fetch_clip (net : ℕ → Str → Option Str) (tw : ℕ) (total_duration : ℚ)
    (base_keyword : Str) (i : ℕ) (text : Str) : FetchResult × List (ℕ × Str) :=
  let d := sentDuration tw total_duration text
  let keyword := fetchKeyword base_keyword text
  match net 0 keyword with
  | some p => (⟨some p, d, i⟩, [(0, keyword)])
  | none => (⟨none, d, i⟩, [(0, keyword)])

/-- Python truthiness of results[i-1]["path"]: a non-None, non-empty string. -/
def prevTruthy : Option Str → Bool
  | some s => !s.isEmpty
  | none => false

/-- The gap-filling loop of get_clips_for_script lines 149-158.  `prev` is
the path stored in the previous result after its own repair; `nf i` is
the outcome of the absolute-fallback call
get_background_video("nature", ..., clip_i.mp4), none meaning it raised,
in which case the exception propagates and the whole call returns none. -/
def fillLoop (nf : ℕ → Option Str) : ℕ → Option Str → List FetchResult →
    Option (List (Str × ℚ))
  | _, _, [] => some []
  | i, prev, r :: rest =>
    match r.path with
    | some p => (fillLoop nf (i + 1) (some p) rest).map (fun l => (p, r.duration) :: l)
    | none =>
      if 0 < i ∧ prevTruthy prev then
        let p := prev.getD []
        (fillLoop nf (i + 1) (some p) rest).map (fun l => (p, r.duration) :: l)
      else
        match nf i with
        | some p => (fillLoop nf (i + 1) (some p) rest).map (fun l => (p, r.duration) :: l)
        | none => none

/-- Gap-filling over a whole result list (lines 149-160). -/
def fillClips (nf : ℕ → Option Str) (results : List FetchResult) :
    Option (List (Str × ℚ)) :=
  fillLoop nf 0 none results

/-- The remote branch of get_clips_for_script (lines 93-160): segment the
script, fetch one clip per segment, re-sort by index, gap-fill.  The
parallel executor.map is order-preserving, so the fetch results are
modelled as the in-order map over the enumerated segments. -/
def get_clips_for_script (net : ℕ → Str → Option Str) (nf : ℕ → Option Str)
    (script : Str) (total_duration : ℚ) (base_keyword : Str) :
    Option (List (Str × ℚ)) :=
  fillClips nf
    (((segmentsOf script total_duration).enum.map
        (fun p => (fetch_clip net (totalWords script) total_duration base_keyword
          p.1 p.2).1)).mergeSort
      (fun a b => decide (a.index ≤ b.index)))

/-- One rendition of a provider video: f.get("file_type", ""),
f.get("height", 1920) (absent key modelled as none), f.get("link"). -/
structure VFile where
  file_type : Str
  height : Option ℤ
  link : Str
deriving DecidableEq, Repr

/-- One provider search candidate: v.get("duration", 0) (absent key
modelled as none) and v.get("video_files", []). -/
structure PexVideo where
  duration : Option ℚ
  video_files : List VFile
deriving DecidableEq, Repr

/-- mp4_files of get_background_video line 61: renditions whose file_type
starts with "video/mp4". -/
def mp4Files (v : PexVideo) : List VFile :=
  v.video_files.filter (fun f => ("video/mp4".toList).isPrefixOf f.file_type)

/-- The max() key of line 69: v.get("duration", 0). -/
def durKey (v : PexVideo) : ℚ := v.duration.getD 0

/-- The sort key of line 72: abs(f.get("height", 1920) - 1920). -/
def sortKey (f : VFile) : ℤ := |f.height.getD 1920 - 1920|

/-- Python max(..., key=durKey): the first element of maximal key. -/
def maxByDuration : PexVideo → List PexVideo → PexVideo
  | best, [] => best
  | best, v :: rest => maxByDuration (if durKey best < durKey v then v else best) rest

/-- The candidate/rendition selection of get_background_video lines 54-73,
given the provider response: keep candidates having an MP4 rendition
(raise, i.e. none, when there are none), pick the one with greatest
duration, stably sort its MP4 renditions by distance of height from
1920, and download the first.  The empty-response raise at line 55 is
subsumed: an empty list has no valid candidate. -/
def get_background_video (videos : List PexVideo) : Option VFile :=
  let valid := videos.filter (fun v => !(mp4Files v).isEmpty)
  match valid with
  | [] => none
  | v0 :: vs =>
    let chosen := maxByDuration v0 vs
    let sorted := (mp4Files chosen).mergeSort (fun f g => decide (sortKey f ≤ sortKey g))
    sorted.head?

/-- config.VIDEO_FPS. -/
def VIDEO_FPS : ℚ := 30

/-- Duration of a clip after _prepare_clip lines 150-155: loop up to the
target when shorter (vfx.Loop(duration=target)), then trim to the target
(subclipped(0, target)). -/
def prepareClipDuration (native target : ℚ) : ℚ :=
  let looped := if native < target then target else native
  min looped target

/-- The duration reconciliation of render_final_video lines 75-80: trim
the concatenated timeline to the audio duration when longer
(subclipped(0, audio)), loop it to the audio duration when shorter
(vfx.Loop(duration=audio)). -/
def reconcileDuration (timeline audio : ℚ) : ℚ :=
  if audio < timeline then audio
  else if timeline < audio then audio
  else timeline

/-- The duration of the final visual timeline of render_final_video in
multi-clip mode (lines 61-80): each item is prepared to its allotted
duration, the prepared clips are concatenated (durations add), and the
result is reconciled against the audio duration.  `nativeDur` gives the
native duration of the asset at each path. -/
def finalVisualDuration (nativeDur : Str → ℚ) (items : List (Str × ℚ))
    (audio : ℚ) : ℚ :=
  reconcileDuration
    ((items.map (fun it => prepareClipDuration (nativeDur it.1) it.2)).sum) audio

/-- What the encoder leaves at the path it writes: a complete file, a
half-written file (failure mid-encode), or nothing (failure before the
container is created). -/
inductive EncodeOutcome
  | complete
  | halfWritten
  | noFile
deriving DecidableEq, Repr

/-- Filesystem operations on paths, as issued by render_final_video. -/
inductive FsOp
  | mkdirParents (dir : Str)
  | writeFile (path : Str) (result : EncodeOutcome)
  | rename (src dst : Str)
  | removeFile (path : Str)
deriving DecidableEq, Repr

/-- The operations render_final_video performs on the output location
(lines 48 and 91-100): make the parent directory, then have
write_videofile encode directly at output_path.  No temporary path is
used, nothing is verified, and nothing is renamed or removed. -/
def renderFileOps (output_path parent : Str) (enc : EncodeOutcome) : List FsOp :=
  [FsOp.mkdirParents parent, FsOp.writeFile output_path enc]

/-- render_final_video returns normally exactly when the encode completed;
otherwise write_videofile raised and the except branch re-raises
(lines 92-114). -/
def renderReturns : EncodeOutcome → Bool
  | EncodeOutcome.complete => true
  | _ => false

/-- Replay one filesystem operation over a path-indexed file state. -/
def applyOp (fs : Str → Option EncodeOutcome) : FsOp → Str → Option EncodeOutcome
  | FsOp.mkdirParents _ => fs
  | FsOp.writeFile p r => fun q =>
      if q = p then (match r with | EncodeOutcome.noFile => none | r => some r) else fs q
  | FsOp.rename src dst => fun q =>
      if q = dst then fs src else if q = src then none else fs q
  | FsOp.removeFile p => fun q => if q = p then none else fs q

/-- Replay a list of filesystem operations from a given file state. -/
def runOps (fs : Str → Option EncodeOutcome) (ops : List FsOp) :
    Str → Option EncodeOutcome :=
  ops.foldl applyOp fs

/-- The empty filesystem. -/
def emptyFs : Str → Option EncodeOutcome := fun _ => none

/-- One entry of the word-timing JSON consumed by the subtitle generators. -/
structure WordItem where
  text : Str
  start : ℚ
  duration : ℚ
deriving DecidableEq, Repr

/-- str.upper() restricted to the character-wise mapping. -/
def upperStr (s : Str) : Str := s.map Char.toUpper

/-- One rendered caption overlay: upper-cased text shown during
[start, start + duration) at the fixed lower band int(1920 * 0.6). -/
structure OverlayClip where
  text : Str
  start : ℚ
  duration : ℚ
  posY : ℤ
deriving DecidableEq, Repr

/-- The TextClip loop of _generate_subtitle_clips lines 214-234: entries
with duration <= 0 are skipped, every other entry becomes one overlay. -/
def generate_subtitle_clips : List WordItem → List OverlayClip
  | [] => []
  | it :: rest =>
    if it.duration ≤ 0 then generate_subtitle_clips rest
    else ⟨upperStr it.text, it.start, it.duration, 1152⟩ :: generate_subtitle_clips rest

/-- The Pillow fallback loop of _generate_subtitle_clips_pillow lines
269-308: the same guard drops entries with duration <= 0; every other
entry becomes one ImageClip overlay at the same band. -/
def generate_subtitle_clips_pillow : List WordItem → List OverlayClip
  | [] => []
  | it :: rest =>
    if it.duration ≤ 0 then generate_subtitle_clips_pillow rest
    else ⟨upperStr it.text, it.start, it.duration, 1152⟩ :: generate_subtitle_clips_pillow rest

/-- Errors raised by generate_audio: the bare ValueError of line 51, or a
RuntimeError from the wrapped pipeline body (messages abbreviated). -/
inductive GenError
  | valueError (msg : Str)
  | runtimeError (msg : Str)
deriving DecidableEq, Repr

/-- Externally visible actions of generate_audio: the one TTS subprocess
invocation of _generate_sync. -/
inductive TtsAction
  | runSubprocess (text : Str) (voice : Str) (outputPath : Str)
deriving DecidableEq, Repr

/-- Outcomes of the external steps of generate_audio: whether the TTS
subprocess exits cleanly, what it leaves on disk, and the MP3 duration
mutagen reads back. -/
structure TtsEnv where
  synthOk : Bool
  outputExists : Bool
  outputSize : ℕ
  subtitleExists : Bool
  mp3Duration : ℚ
deriving DecidableEq, Repr

/-- Path.with_suffix(".json"): replace the suffix of the last path
component (or append when it has none). -/
def withSuffixJson (p : Str) : Str :=
  let lastComp := p.reverse.takeWhile (fun c => c ≠ '/')
  let stem := if lastComp.contains '.'
    then ((p.reverse.dropWhile (fun c => c ≠ '.')).drop 1).reverse
    else p
  stem ++ ".json".toList

/-- tts_engine.generate_audio lines 41-83: reject empty or blank text with
ValueError before anything runs; otherwise run the TTS subprocess once
and validate its products, wrapping any failure as RuntimeError.  The
second component lists the external actions performed. -/
def generate_audio (env : TtsEnv) (text : Str) (output_path : Str) (voice : Str) :
    Except GenError (Str × ℚ × Str) × List TtsAction :=
  if text.isEmpty || (pystrip text).isEmpty then
    (Except.error (GenError.valueError "Cannot generate audio from empty text.".toList), [])
  else
    let acts := [TtsAction.runSubprocess text voice output_path]
    if !env.synthOk then
      (Except.error (GenError.runtimeError "TTS subprocess failed".toList), acts)
    else if !env.outputExists || env.outputSize = 0 then
      (Except.error (GenError.runtimeError "empty or missing audio file".toList), acts)
    else if !env.subtitleExists then
      (Except.error (GenError.runtimeError "no subtitle JSON file".toList), acts)
    else if env.mp3Duration ≤ 0 then
      (Except.error (GenError.runtimeError "invalid duration".toList), acts)
    else
      (Except.ok (output_path, env.mp3Duration, withSuffixJson output_path), acts)

/-- C4: for every render job, after concatenating the prepared clips the
compositor trims the tail when the concatenated timeline is longer than
the narration audio and loops the entire timeline when it is shorter, so
the final visual timeline duration equals the narration audio duration —
exactly in the model, hence within one frame interval (1/fps seconds). -/
theorem c4_final_duration_equals_audio (nativeDur : Str → ℚ)
    (items : List (Str × ℚ)) (audio : ℚ) :
    finalVisualDuration nativeDur items audio = audio ∧
    |finalVisualDuration nativeDur items audio - audio| ≤ 1 / VIDEO_FPS := by
  have h : ∀ t, reconcileDuration t audio = audio := by
    intro t
    unfold reconcileDuration
    by_cases h1 : audio < t
    · simp [h1]
    · by_cases h2 : t < audio
      · simp [h1, h2]
      · simp [h1, h2]
        linarith [not_lt.mp h1, not_lt.mp h2]
  refine ⟨h _, ?_⟩
  rw [show finalVisualDuration nativeDur items audio = audio from h _]
  simp [VIDEO_FPS]

/-- C8: in both the TextClip path and the Pillow fallback path, exactly the
caption entries with positive duration are rendered, each as one overlay;
in particular the timeline whose only entry is HELLO with duration 0
produces no overlay at all. -/
theorem c8_zero_duration_captions_dropped :
    (∀ wd : List WordItem,
      generate_subtitle_clips wd =
        (wd.filter fun it => decide (0 < it.duration)).map
          (fun it => ⟨upperStr it.text, it.start, it.duration, 1152⟩) ∧
      generate_subtitle_clips_pillow wd =
        (wd.filter fun it => decide (0 < it.duration)).map
          (fun it => ⟨upperStr it.text, it.start, it.duration, 1152⟩)) ∧
    generate_subtitle_clips [⟨"HELLO".toList, 0, 0⟩] = [] ∧
    generate_subtitle_clips_pillow [⟨"HELLO".toList, 0, 0⟩] = [] := by
  refine ⟨fun wd => ⟨?_, ?_⟩, by decide, by decide⟩
  · induction wd with
    | nil => rfl
    | cons it rest ih =>
      by_cases hd : it.duration ≤ 0
      · simp [generate_subtitle_clips, hd, List.filter_cons, not_lt.mpr hd, ih]
      · simp [generate_subtitle_clips, hd, List.filter_cons, lt_of_not_le hd, ih]
  · induction wd with
    | nil => rfl
    | cons it rest ih =>
      by_cases hd : it.duration ≤ 0
      · simp [generate_subtitle_clips_pillow, hd, List.filter_cons, not_lt.mpr hd, ih]
      · simp [generate_subtitle_clips_pillow, hd, List.filter_cons, lt_of_not_le hd, ih]

/-- C9: for every script text that is empty or consists only of whitespace,
generate_audio raises ValueError before any pipeline stage runs — no
subprocess is invoked, no file is produced, and nothing is retried. -/
theorem c9_blank_script_rejected (env : TtsEnv) (text output_path voice : Str)
    (h : pystrip text = []) :
    generate_audio env text output_path voice =
      (Except.error (GenError.valueError "Cannot generate audio from empty text.".toList),
       []) := by
  unfold generate_audio
  have hb : (pystrip text).isEmpty = true := by simp [h]
  simp [hb]

/-- Witness for c9_blank_script_rejected at the whitespace-only script. -/
theorem c9_blank_script_rejected_witness :
    pystrip "  ".toList = [] ∧
    generate_audio ⟨true, true, 5, true, 7⟩ "  ".toList "o.mp3".toList "v".toList =
      (Except.error (GenError.valueError "Cannot generate audio from empty text.".toList),
       []) :=
  ⟨by decide, c9_blank_script_rejected ⟨true, true, 5, true, 7⟩ _ _ _ (by decide)⟩

/-- C5 counterexample: render_final_video hands the real output path
directly to the encoder; when encoding fails midway the call raises and a
half-written file remains at the final output path, contradicting the
claimed temp-encode, verify, atomic-rename behaviour. -/
theorem c5_counterexample :
    renderReturns EncodeOutcome.halfWritten = false ∧
    runOps emptyFs
      (renderFileOps "out/final.mp4".toList "out".toList EncodeOutcome.halfWritten)
      "out/final.mp4".toList = some EncodeOutcome.halfWritten := by
  constructor
  · rfl
  · rfl

/-- C5 amended: the compositor performs no rename and writes only at the
real output path; it returns normally exactly when encoding completes,
and a file (complete or half-written) is left at the final path in every
case except an encoder failure that never created the container. -/
theorem c5_amended (output_path parent : Str) (enc : EncodeOutcome) :
    (∀ src dst, FsOp.rename src dst ∉ renderFileOps output_path parent enc) ∧
    (∀ p r, FsOp.writeFile p r ∈ renderFileOps output_path parent enc → p = output_path) ∧
    (renderReturns enc = true ↔ enc = EncodeOutcome.complete) ∧
    (runOps emptyFs (renderFileOps output_path parent enc) output_path = none ↔
      enc = EncodeOutcome.noFile) := by
  refine ⟨?_, ?_, ?_, ?_⟩
  · intro src dst
    simp [renderFileOps]
  · intro p r hmem
    simp [renderFileOps] at hmem
    exact hmem.1
  · cases enc <;> simp [renderReturns]
  · cases enc <;> simp [runOps, renderFileOps, applyOp, emptyFs]

/-- Witness for c5_amended at a concrete output path and encode outcome. -/
theorem c5_amended_witness :
    renderReturns EncodeOutcome.complete = true ∧
    runOps emptyFs
      (renderFileOps "a/f.mp4".toList "a".toList EncodeOutcome.noFile)
      "a/f.mp4".toList = none :=
  ⟨(c5_amended "a/f.mp4".toList "a".toList EncodeOutcome.complete).2.2.1.mpr rfl,
   (c5_amended "a/f.mp4".toList "a".toList EncodeOutcome.noFile).2.2.2.mpr rfl⟩

/-- The network oracle of the C6 counterexample: the request for the
segment keyword fails on the first attempt but any retry would succeed,
and a request for the generic keyword "nature" always succeeds. -/
def c6net : ℕ → Str → Option Str := fun n kw =>
  if 1 ≤ n then some "retry.mp4".toList
  else if kw = "nature".toList then some "nature-fallback.mp4".toList
  else none

/-- C6 counterexample: fetch_clip issues exactly one network request (no
retry) and never queries the generic keyword: although a second attempt
or a "nature" query would have succeeded, the segment is marked failed
(path None) and handed to gap-filling. -/
theorem c6_counterexample :
    (fetch_clip c6net 8 10 "nature".toList 0 "ocean waves crash".toList).1.path = none ∧
    (fetch_clip c6net 8 10 "nature".toList 0 "ocean waves crash".toList).2 =
      [(0, "nature ocean waves".toList)] ∧
    c6net 1 "nature ocean waves".toList = some "retry.mp4".toList ∧
    c6net 0 "nature".toList = some "nature-fallback.mp4".toList := by
  refine ⟨by rfl, by rfl, by rfl, by rfl⟩

/-- C6 amended: each segment's remote fetch makes exactly one request, for
the single derived keyword; its outcome is exactly the network's answer
for that keyword (failure marks the segment failed for gap-filling, with
its allotted duration and index preserved); there is no retry, no
backoff, and no per-segment generic-keyword fallback inside the fetch. -/
theorem c6_amended (net : ℕ → Str → Option Str) (tw : ℕ) (total_duration : ℚ)
    (base_keyword : Str) (i : ℕ) (text : Str) :
    (fetch_clip net tw total_duration base_keyword i text).2 =
      [(0, fetchKeyword base_keyword text)] ∧
    (fetch_clip net tw total_duration base_keyword i text).1.path =
      net 0 (fetchKeyword base_keyword text) ∧
    (fetch_clip net tw total_duration base_keyword i text).1.duration =
      sentDuration tw total_duration text ∧
    (fetch_clip net tw total_duration base_keyword i text).1.index = i := by
  unfold fetch_clip
  cases h : net 0 (fetchKeyword base_keyword text) <;> simp [h]

/-- Evaluation of fetch_clip: one request for the derived keyword, whose
answer becomes the path; duration and index are the segment's. -/
theorem fetch_clip_eval (net : ℕ → Str → Option Str) (tw : ℕ) (total_duration : ℚ)
    (base_keyword : Str) (i : ℕ) (text : Str) :
    (fetch_clip net tw total_duration base_keyword i text).1 =
      ⟨net 0 (fetchKeyword base_keyword text), sentDuration tw total_duration text, i⟩ ∧
    (fetch_clip net tw total_duration base_keyword i text).2 =
      [(0, fetchKeyword base_keyword text)] := by
  unfold fetch_clip
  cases h : net 0 (fetchKeyword base_keyword text) <;> simp [h]

/-- The path value carried into gap-filling position j: the incoming prev
for the first position, else the path emitted at the previous position. -/
def prevPathAt (prev : Option Str) (out : List (Str × ℚ)) : ℕ → Option Str
  | 0 => prev
  | j + 1 => (out[j]?).map Prod.fst

/-- Unfolding of one gap-filling step that returned a list. -/
theorem fillLoop_cons_some {nf : ℕ → Option Str} {i : ℕ} {prev : Option Str}
    {r : FetchResult} {rest : List FetchResult} {out : List (Str × ℚ)}
    (h : fillLoop nf i prev (r :: rest) = some out) :
    ∃ p l, out = (p, r.duration) :: l ∧ fillLoop nf (i + 1) (some p) rest = some l ∧
      (∀ q, r.path = some q → p = q) ∧
      (r.path = none →
        ((0 < i ∧ prevTruthy prev = true) → p = prev.getD []) ∧
        (¬(0 < i ∧ prevTruthy prev = true) → nf i = some p)) := by
  cases hp : r.path with
  | some q =>
    simp only [fillLoop, hp] at h
    obtain ⟨l, hl, hout⟩ := Option.map_eq_some'.mp h
    refine ⟨q, l, hout.symm, hl, ?_, ?_⟩
    · intro q' hq'
      exact Option.some.inj hq'
    · intro hnone
      exact absurd hnone (by simp)
  | none =>
    simp only [fillLoop, hp] at h
    by_cases hc : 0 < i ∧ prevTruthy prev = true
    · rw [if_pos hc] at h
      obtain ⟨l, hl, hout⟩ := Option.map_eq_some'.mp h
      refine ⟨prev.getD [], l, hout.symm, hl, ?_, ?_⟩
      · intro q' hq'
        exact absurd hq' (by simp)
      · exact fun _ => ⟨fun _ => rfl, fun hnc => absurd hc hnc⟩
    · rw [if_neg hc] at h
      cases hnf : nf i with
      | none =>
        rw [hnf] at h
        cases h
      | some p =>
        rw [hnf] at h
        obtain ⟨l, hl, hout⟩ := Option.map_eq_some'.mp h
        refine ⟨p, l, hout.symm, hl, ?_, ?_⟩
        · intro q' hq'
          exact absurd hq' (by simp)
        · exact fun _ => ⟨fun hc' => absurd hc' hc, fun _ => rfl⟩

/-- Full behaviour of the gap-filling loop when it returns: same length,
each entry keeps its own duration, a successful fetch keeps its own path,
and a failed fetch is repaired from the carried previous path when the
loop index is positive and that path is truthy, else from the
generic-keyword refetch. -/
theorem fillLoop_spec (rest : List FetchResult) : ∀ (nf : ℕ → Option Str) (i : ℕ)
    (prev : Option Str) (out : List (Str × ℚ)),
    fillLoop nf i prev rest = some out →
    out.length = rest.length ∧
    ∀ j r, rest[j]? = some r →
      ∃ p, out[j]? = some (p, r.duration) ∧
        (∀ q, r.path = some q → p = q) ∧
        (r.path = none →
          ((0 < i + j ∧ prevTruthy (prevPathAt prev out j) = true) →
            p = (prevPathAt prev out j).getD []) ∧
          (¬(0 < i + j ∧ prevTruthy (prevPathAt prev out j) = true) →
            nf (i + j) = some p)) := by
  induction rest with
  | nil =>
    intro nf i prev out h
    simp only [fillLoop] at h
    cases h
    constructor
    · rfl
    · intro j r hj
      simp at hj
  | cons r rest ih =>
    intro nf i prev out h
    obtain ⟨p, l, rfl, hl, hsucc, hnone⟩ := fillLoop_cons_some h
    obtain ⟨hlen, hspec⟩ := ih nf (i + 1) (some p) l hl
    constructor
    · simp [hlen]
    · intro j rr hj
      cases j with
      | zero =>
        simp only [List.getElem?_cons_zero, Option.some.injEq] at hj
        subst hj
        refine ⟨p, by simp, hsucc, ?_⟩
        intro hpath
        have hz : prevPathAt prev ((p, r.duration) :: l) 0 = prev := rfl
        rw [hz, Nat.add_zero]
        exact hnone hpath
      | succ j' =>
        simp only [List.getElem?_cons_succ] at hj
        obtain ⟨p', hout', hsucc', hnone'⟩ := hspec j' rr hj
        refine ⟨p', by simpa using hout', hsucc', ?_⟩
        intro hpath
        have harith : i + 1 + j' = i + (j' + 1) := by omega
        have hprev : prevPathAt (some p) l j' =
            prevPathAt prev ((p, r.duration) :: l) (j' + 1) := by
          cases j' with
          | zero => simp [prevPathAt]
          | succ j'' => simp [prevPathAt]
        rw [← hprev, ← harith]
        exact hnone' hpath

/-- The failed-fetch list of the C2 counterexample: only segment 2 of 5
fetched successfully; each segment keeps its own allotted duration. -/
def c2res : List FetchResult :=
  [⟨none, 1, 0⟩, ⟨none, 2, 1⟩, ⟨some "c2.mp4".toList, 3, 2⟩,
   ⟨none, 4, 3⟩, ⟨none, 5, 4⟩]

/-- The absolute-fallback oracle of the C2 counterexample: the fresh
get_background_video("nature", ...) call succeeds. -/
def c2nf : ℕ → Option Str := fun _ => some "nature0.mp4".toList

/-- C2 counterexample: with only segment 2 of 5 successful, gap-filling
gives segments 0 and 1 a freshly fetched generic-keyword clip, not a copy
of segment 2's asset: there is no forward search, so not all five entries
point at segment 2's path. -/
theorem c2_counterexample :
    fillClips c2nf c2res = some
      [("nature0.mp4".toList, 1), ("nature0.mp4".toList, 2), ("c2.mp4".toList, 3),
       ("c2.mp4".toList, 4), ("c2.mp4".toList, 5)] ∧
    "nature0.mp4".toList ≠ "c2.mp4".toList := by
  refine ⟨by rfl, by decide⟩

/-- C2 amended: when gap-filling returns, every entry keeps its own
segment's allotted duration and a successful segment its own path; a
failed segment at position 0 gets the result of a fresh generic-keyword
("nature") fetch, and a failed segment at a later position gets a copy of
the path already stored at the preceding position (backward propagation
only — there is no forward search). -/
theorem c2_amended (nf : ℕ → Option Str) (results : List FetchResult)
    (out : List (Str × ℚ)) (h : fillClips nf results = some out) :
    out.length = results.length ∧
    ∀ j r, results[j]? = some r →
      ∃ p, out[j]? = some (p, r.duration) ∧
        (∀ q, r.path = some q → p = q) ∧
        (r.path = none → j = 0 → nf 0 = some p) ∧
        (r.path = none → ∀ j' prevE, j = j' + 1 → out[j']? = some prevE →
          (prevE.1 ≠ [] → p = prevE.1) ∧ (prevE.1 = [] → nf j = some p)) := by
  obtain ⟨hlen, hspec⟩ := fillLoop_spec results nf 0 none out h
  refine ⟨hlen, ?_⟩
  intro j r hj
  obtain ⟨p, hout, hsucc, hnone⟩ := hspec j r hj
  refine ⟨p, hout, hsucc, ?_, ?_⟩
  · intro hpath hj0
    subst hj0
    have h0 : prevPathAt none out 0 = none := rfl
    have := (hnone hpath).2
    rw [h0] at this
    exact this (by simp [prevTruthy])
  · intro hpath j' prevE hj' hprevE
    subst hj'
    have hp : prevPathAt none out (j' + 1) = some prevE.1 := by
      simp [prevPathAt, hprevE]
    obtain ⟨hcopy, hfresh⟩ := hnone hpath
    rw [hp] at hcopy hfresh
    constructor
    · intro hne
      have : prevTruthy (some prevE.1) = true := by
        simp [prevTruthy, hne]
      simpa using hcopy ⟨by omega, this⟩
    · intro heq
      have : prevTruthy (some prevE.1) = false := by
        simp [prevTruthy, heq]
      have := hfresh (by simp [this])
      simpa using this

/-- Witness for c2_amended at the five-segment counterexample input. -/
theorem c2_amended_witness :
    (fillClips c2nf c2res = some
      [("nature0.mp4".toList, 1), ("nature0.mp4".toList, 2), ("c2.mp4".toList, 3),
       ("c2.mp4".toList, 4), ("c2.mp4".toList, 5)]) ∧
    ([("nature0.mp4".toList, (1 : ℚ)), ("nature0.mp4".toList, 2), ("c2.mp4".toList, 3),
      ("c2.mp4".toList, 4), ("c2.mp4".toList, 5)].length = c2res.length) :=
  ⟨by rfl, (c2_amended c2nf c2res _ (by rfl)).1⟩

/-- Concrete evaluation of the segmenter on the three-sentence script. -/
theorem seg3_eval : segmentsOf "One. Two. Three.".toList 30 =
    ["One.".toList, "Two.".toList, "Three.".toList] := by
  have hs : sentencesOf "One. Two. Three.".toList =
      ["One.".toList, "Two.".toList, "Three.".toList] := by rfl
  unfold segmentsOf
  rw [hs]
  norm_num +decide [targetSegmentWords, wordsPerSec, groupSegments, segLoopAux, wordCount,
    joinSpace, totalWords, pysplit, pysplitAux, isWs]

/-- The network oracle of the C3 counterexample: only the fetch for the
second segment's keyword succeeds. -/
def c3net : ℕ → Str → Option Str := fun _ kw =>
  if kw = "nature Two.".toList then some "s2.mp4".toList else none

/-- C3 counterexample: segment 1's fetch succeeds, yet because segment 0's
fetch failed and its fresh generic-keyword refetch also fails, the
exception propagates and no list at all is returned — the at-least-one-
success condition does not guarantee a same-length result list. -/
theorem c3_counterexample :
    (fetch_clip c3net (totalWords "One. Two. Three.".toList) 30 "nature".toList 1
        "Two.".toList).1.path = some "s2.mp4".toList ∧
    get_clips_for_script c3net (fun _ => none) "One. Two. Three.".toList 30
      "nature".toList = none := by
  constructor
  · rfl
  · unfold get_clips_for_script
    rw [seg3_eval, List.mergeSort_of_sorted (by decide)]
    rfl

/-- C3 amended: whenever remote acquisition returns at all, the returned
list has exactly one entry per segment, in original segment order, each
carrying that segment's allotted duration. -/
theorem c3_amended (net : ℕ → Str → Option Str) (nf : ℕ → Option Str)
    (script : Str) (total_duration : ℚ) (base_keyword : Str) (out : List (Str × ℚ))
    (h : get_clips_for_script net nf script total_duration base_keyword = some out) :
    out.length = (segmentsOf script total_duration).length ∧
    ∀ (j : ℕ) (seg : Str), (segmentsOf script total_duration)[j]? = some seg →
      ∃ p : Str, out[j]? =
        some (p, sentDuration (totalWords script) total_duration seg) := by
  have hidx : ∀ p : ℕ × Str,
      ((fetch_clip net (totalWords script) total_duration base_keyword p.1 p.2).1).index
        = p.1 := by
    intro p
    rw [(fetch_clip_eval net (totalWords script) total_duration base_keyword p.1 p.2).1]
  have hpair : (((segmentsOf script total_duration).enum.map
      (fun p => (fetch_clip net (totalWords script) total_duration base_keyword
        p.1 p.2).1))).Pairwise (fun a b => decide (a.index ≤ b.index) = true) := by
    rw [List.pairwise_map]
    have hr := List.pairwise_lt_range (segmentsOf script total_duration).length
    rw [← List.enum_map_fst (segmentsOf script total_duration)] at hr
    have hlt := List.pairwise_map.mp hr
    refine hlt.imp ?_
    intro a b hab
    simp only [hidx, decide_eq_true_eq]
    omega
  have hsort := List.mergeSort_of_sorted hpair
  unfold get_clips_for_script at h
  rw [hsort] at h
  unfold fillClips at h
  obtain ⟨hlen, hspec⟩ := fillLoop_spec _ nf 0 none out h
  constructor
  · rw [hlen]
    simp [List.length_map, List.enum_length]
  · intro j seg hj
    have hrj : (((segmentsOf script total_duration).enum.map
        (fun p => (fetch_clip net (totalWords script) total_duration base_keyword
          p.1 p.2).1)))[j]? =
        some ((fetch_clip net (totalWords script) total_duration base_keyword
          j seg).1) := by
      rw [List.getElem?_map, List.getElem?_enum, hj]
      rfl
    obtain ⟨p, hout, _, _⟩ := hspec j _ hrj
    refine ⟨p, ?_⟩
    have hd : ((fetch_clip net (totalWords script) total_duration base_keyword
        j seg).1).duration = sentDuration (totalWords script) total_duration seg := by
      rw [(fetch_clip_eval net (totalWords script) total_duration base_keyword j seg).1]
    rw [hd] at hout
    exact hout

/-- The all-success network oracle of the C3 witness. -/
def allnet : ℕ → Str → Option Str := fun _ _ => some "x.mp4".toList

/-- Witness for c3_amended on a successful three-segment run. -/
theorem c3_amended_witness :
    (get_clips_for_script allnet (fun _ => none) "One. Two. Three.".toList 30
      "nature".toList =
      some [("x.mp4".toList, 10), ("x.mp4".toList, 10), ("x.mp4".toList, 10)]) ∧
    ([("x.mp4".toList, (10 : ℚ)), ("x.mp4".toList, 10), ("x.mp4".toList, 10)].length =
      (segmentsOf "One. Two. Three.".toList 30).length) := by
  have h : get_clips_for_script allnet (fun _ => none) "One. Two. Three.".toList 30
      "nature".toList =
      some [("x.mp4".toList, 10), ("x.mp4".toList, 10), ("x.mp4".toList, 10)] := by
    unfold get_clips_for_script
    rw [seg3_eval, List.mergeSort_of_sorted (by decide)]
    norm_num +decide [fillClips, fillLoop, fetch_clip, fetchKeyword, allnet, sentDuration,
      wordCount, pysplit, pysplitAux, isWs, totalWords, joinSpace, pystrip, List.map]
  exact ⟨h, (c3_amended allnet (fun _ => none) "One. Two. Three.".toList 30
    "nature".toList _ h).1⟩

/-- Python max(..., key=...) keeps an element of the scanned list. -/
theorem maxByDuration_mem (v0 : PexVideo) (vs : List PexVideo) :
    maxByDuration v0 vs ∈ v0 :: vs := by
  induction vs generalizing v0 with
  | nil => simp [maxByDuration]
  | cons w ws ih =>
    have hb := ih (if durKey v0 < durKey w then w else v0)
    by_cases h : durKey v0 < durKey w <;>
      simp only [maxByDuration, h, if_pos, if_neg, if_true, if_false] <;>
      simp only [h, if_true, if_false] at hb <;>
      simp at hb ⊢ <;> tauto

/-- Python max(..., key=...) dominates every scanned element. -/
theorem maxByDuration_le (v0 : PexVideo) (vs : List PexVideo) :
    ∀ v ∈ v0 :: vs, durKey v ≤ durKey (maxByDuration v0 vs) := by
  induction vs generalizing v0 with
  | nil =>
    intro v hv
    have hveq : v = v0 := by simpa using hv
    rw [hveq]
    simp [maxByDuration]
  | cons w ws ih =>
    intro v hv
    have hstep : maxByDuration v0 (w :: ws) =
        maxByDuration (if durKey v0 < durKey w then w else v0) ws := rfl
    have hb : durKey v0 ≤ durKey (if durKey v0 < durKey w then w else v0) := by
      by_cases h : durKey v0 < durKey w
      · rw [if_pos h]
        exact le_of_lt h
      · rw [if_neg h]
    have hw' : durKey w ≤ durKey (if durKey v0 < durKey w then w else v0) := by
      by_cases h : durKey v0 < durKey w
      · rw [if_pos h]
      · rw [if_neg h]
        exact not_lt.mp h
    have hbmax : durKey (if durKey v0 < durKey w then w else v0) ≤
        durKey (maxByDuration (if durKey v0 < durKey w then w else v0) ws) :=
      ih _ _ (by simp)
    rw [hstep]
    rcases (by simpa using hv : v = v0 ∨ v = w ∨ v ∈ ws) with h1 | h1 | h1
    · rw [h1]
      exact le_trans hb hbmax
    · rw [h1]
      exact le_trans hw' hbmax
    · exact ih _ v (by simp [h1])

/-- The first element of a list stably sorted by an integer key is a
member of minimal key. -/
theorem head_mergeSort_min {α : Type} (key : α → ℤ) (l : List α) (f : α)
    (hf : (l.mergeSort (fun a b => decide (key a ≤ key b))).head? = some f) :
    f ∈ l ∧ ∀ g ∈ l, key f ≤ key g := by
  have hperm := List.mergeSort_perm l (fun a b => decide (key a ≤ key b))
  have hsort := @List.sorted_mergeSort α (fun a b => decide (key a ≤ key b))
    (fun a b c hab hbc => by
      simp only [decide_eq_true_eq] at hab hbc ⊢
      omega)
    (fun a b => by
      simp only [Bool.or_eq_true, decide_eq_true_eq]
      omega) l
  cases hms : l.mergeSort (fun a b => decide (key a ≤ key b)) with
  | nil => rw [hms] at hf; cases hf
  | cons a t =>
    rw [hms] at hf hsort hperm
    have haf : a = f := by simpa using hf
    subst haf
    obtain ⟨hhead, _⟩ := List.pairwise_cons.mp hsort
    constructor
    · exact hperm.mem_iff.mp (by simp)
    · intro g hg
      rcases (by simpa using hperm.mem_iff.mpr hg : g = a ∨ g ∈ t) with rfl | hgt
      · exact le_refl _
      · simpa using hhead g hgt

/-- C7: when a provider response has a candidate with a downloadable MP4
rendition, get_background_video downloads a rendition of the candidate
with the greatest native duration, and among that candidate's MP4
renditions it picks one whose height is closest to 1920. -/
theorem c7_best_candidate_selection (videos : List PexVideo)
    (h : ∃ v ∈ videos, mp4Files v ≠ []) :
    ∃ f chosen, get_background_video videos = some f ∧
      chosen ∈ videos ∧ mp4Files chosen ≠ [] ∧ f ∈ mp4Files chosen ∧
      (∀ v ∈ videos, mp4Files v ≠ [] → durKey v ≤ durKey chosen) ∧
      (∀ g ∈ mp4Files chosen, sortKey f ≤ sortKey g) := by
  obtain ⟨v, hvmem, hvne⟩ := h
  cases hv : videos.filter (fun v => !(mp4Files v).isEmpty) with
  | nil =>
    exact absurd (List.filter_eq_nil_iff.mp hv v hvmem) (by simp [hvne])
  | cons v0 vs =>
    have hchosen_valid : maxByDuration v0 vs ∈
        videos.filter (fun v => !(mp4Files v).isEmpty) := by
      rw [hv]
      exact maxByDuration_mem v0 vs
    have hchosen_mem : maxByDuration v0 vs ∈ videos :=
      (List.mem_filter.mp hchosen_valid).1
    have hchosen_ne : mp4Files (maxByDuration v0 vs) ≠ [] := by
      have := (List.mem_filter.mp hchosen_valid).2
      simpa using this
    have hms_ne : (mp4Files (maxByDuration v0 vs)).mergeSort
        (fun f g => decide (sortKey f ≤ sortKey g)) ≠ [] := by
      intro hnil
      have := @List.length_mergeSort VFile (fun f g => decide (sortKey f ≤ sortKey g))
        (mp4Files (maxByDuration v0 vs))
      rw [hnil] at this
      exact hchosen_ne (List.length_eq_zero.mp this.symm)
    obtain ⟨f, hf⟩ : ∃ f, ((mp4Files (maxByDuration v0 vs)).mergeSort
        (fun f g => decide (sortKey f ≤ sortKey g))).head? = some f := by
      cases hcase : (mp4Files (maxByDuration v0 vs)).mergeSort
          (fun f g => decide (sortKey f ≤ sortKey g)) with
      | nil => exact absurd hcase hms_ne
      | cons a t => exact ⟨a, rfl⟩
    obtain ⟨hfmem, hfmin⟩ := head_mergeSort_min sortKey _ f hf
    refine ⟨f, maxByDuration v0 vs, ?_, hchosen_mem, hchosen_ne, hfmem, ?_, hfmin⟩
    · unfold get_background_video
      rw [hv]
      exact hf
    · intro w hwmem hwne
      have hw_valid : w ∈ videos.filter (fun v => !(mp4Files v).isEmpty) :=
        List.mem_filter.mpr ⟨hwmem, by simpa using hwne⟩
      rw [hv] at hw_valid
      exact maxByDuration_le v0 vs w hw_valid

/-- The provider response of the C7 witness: the 30-second candidate wins
and its 2048-pixel rendition is nearer 1920 than its 1080-pixel one. -/
def c7videos : List PexVideo :=
  [⟨some 10, [⟨"video/mp4".toList, some 720, "a720".toList⟩]⟩,
   ⟨some 30, [⟨"video/mp4".toList, some 1080, "b1080".toList⟩,
              ⟨"video/mp4".toList, some 2048, "b2048".toList⟩,
              ⟨"image/png".toList, some 100, "bpng".toList⟩]⟩]

/-- Witness for c7_best_candidate_selection at a concrete response. -/
theorem c7_best_candidate_selection_witness :
    (∃ v ∈ c7videos, mp4Files v ≠ []) ∧
    (∃ f chosen, get_background_video c7videos = some f ∧
      chosen ∈ c7videos ∧ mp4Files chosen ≠ [] ∧ f ∈ mp4Files chosen ∧
      (∀ v ∈ c7videos, mp4Files v ≠ [] → durKey v ≤ durKey chosen) ∧
      (∀ g ∈ mp4Files chosen, sortKey f ≤ sortKey g)) :=
  have hyp : ∃ v ∈ c7videos, mp4Files v ≠ [] :=
    ⟨⟨some 10, [⟨"video/mp4".toList, some 720, "a720".toList⟩]⟩,
      by simp [c7videos], by decide⟩
  ⟨hyp, c7_best_candidate_selection c7videos hyp⟩

/-- " ".join splits over a concatenation of nonempty lists. -/
theorem joinSpace_append (x y : List Str) (hx : x ≠ []) (hy : y ≠ []) :
    joinSpace (x ++ y) = joinSpace x ++ ' ' :: joinSpace y := by
  induction x with
  | nil => exact absurd rfl hx
  | cons a x' ih =>
    cases x' with
    | nil =>
      cases y with
      | nil => exact absurd rfl hy
      | cons b y' => rfl
    | cons c x'' =>
      have ih' := ih (by simp)
      show a ++ ' ' :: joinSpace (c :: (x'' ++ y)) =
        (a ++ ' ' :: joinSpace (c :: x'')) ++ ' ' :: joinSpace y
      rw [show (c :: (x'' ++ y)) = (c :: x'') ++ y from rfl, ih']
      simp

/-- The split accumulator distributes over an embedded space. -/
theorem pysplitAux_append_space (a : Str) : ∀ (acc : Str) (b : Str),
    pysplitAux (a ++ ' ' :: b) acc = pysplitAux a acc ++ pysplitAux b [] := by
  induction a with
  | nil =>
    intro acc b
    have hws : isWs ' ' = true := rfl
    show pysplitAux (' ' :: b) acc = pysplitAux [] acc ++ pysplitAux b []
    by_cases hacc : acc.isEmpty <;>
      simp [pysplitAux, hws, hacc]
  | cons c a' ih =>
    intro acc b
    show pysplitAux (c :: (a' ++ ' ' :: b)) acc =
      pysplitAux (c :: a') acc ++ pysplitAux b []
    by_cases hc : isWs c
    · by_cases hacc : acc.isEmpty <;>
        simp [pysplitAux, hc, hacc, ih]
    · simp [pysplitAux, hc, ih]

/-- Python split of a space-join is the concatenation of the splits. -/
theorem pysplit_append_space (a b : Str) :
    pysplit (a ++ ' ' :: b) = pysplit a ++ pysplit b :=
  pysplitAux_append_space a [] b

/-- Python split of " ".join(parts) splits each part independently. -/
theorem pysplit_joinSpace (parts : List Str) :
    pysplit (joinSpace parts) = (parts.map pysplit).flatten := by
  induction parts with
  | nil => rfl
  | cons s t ih =>
    cases t with
    | nil => simp [joinSpace]
    | cons u t' =>
      show pysplit (s ++ ' ' :: joinSpace (u :: t')) = _
      rw [pysplit_append_space, ih]
      simp

/-- The word count of a space-join is the sum of the word counts. -/
theorem wordCount_joinSpace (parts : List Str) :
    wordCount (joinSpace parts) = (parts.map wordCount).sum := by
  unfold wordCount
  rw [pysplit_joinSpace, List.length_flatten, List.map_map]
  rfl

/-- Ghost version of the grouping loop that keeps each group as a list of
sentences instead of joining it into one string. -/
def partsLoopAux (target : ℚ) : List Str → List (List Str) → List Str → ℕ →
    List (List Str) × List Str
  | [], parts, currSeg, _ => (parts, currSeg)
  | s :: rest, parts, currSeg, currWords =>
    let currSeg' := currSeg ++ [s]
    let currWords' := currWords + wordCount s
    if target ≤ (currWords' : ℚ) then
      partsLoopAux target rest (parts ++ [currSeg']) [] 0
    else
      partsLoopAux target rest parts currSeg' currWords'

/-- The grouping loop is the space-join image of the ghost loop. -/
theorem segLoop_eq_partsLoop (target : ℚ) : ∀ (sentences : List Str)
    (parts : List (List Str)) (currSeg : List Str) (currWords : ℕ),
    segLoopAux target sentences (parts.map joinSpace) currSeg currWords =
      ((partsLoopAux target sentences parts currSeg currWords).1.map joinSpace,
       (partsLoopAux target sentences parts currSeg currWords).2) := by
  intro sentences
  induction sentences with
  | nil => intro parts currSeg currWords; rfl
  | cons s rest ih =>
    intro parts currSeg currWords
    have hstepP : partsLoopAux target (s :: rest) parts currSeg currWords =
        (if target ≤ ((currWords + wordCount s : ℕ) : ℚ) then
          partsLoopAux target rest (parts ++ [currSeg ++ [s]]) [] 0
        else partsLoopAux target rest parts (currSeg ++ [s])
          (currWords + wordCount s)) := rfl
    have hstepS : segLoopAux target (s :: rest) (parts.map joinSpace) currSeg currWords =
        (if target ≤ ((currWords + wordCount s : ℕ) : ℚ) then
          segLoopAux target rest
            (parts.map joinSpace ++ [joinSpace (currSeg ++ [s])]) [] 0
        else segLoopAux target rest (parts.map joinSpace) (currSeg ++ [s])
          (currWords + wordCount s)) := rfl
    have hmap : parts.map joinSpace ++ [joinSpace (currSeg ++ [s])] =
        (parts ++ [currSeg ++ [s]]).map joinSpace := by simp
    by_cases hc : target ≤ ((currWords + wordCount s : ℕ) : ℚ)
    · rw [hstepP, hstepS, if_pos hc, if_pos hc, hmap, ih]
    · rw [hstepP, hstepS, if_neg hc, if_neg hc, ih]

/-- The ghost loop loses no sentence: flattening the groups and appending
the pending group recovers everything scanned so far plus the rest. -/
theorem partsLoop_flatten (target : ℚ) : ∀ (sentences : List Str)
    (parts : List (List Str)) (currSeg : List Str) (currWords : ℕ),
    (partsLoopAux target sentences parts currSeg currWords).1.flatten ++
      (partsLoopAux target sentences parts currSeg currWords).2 =
    parts.flatten ++ currSeg ++ sentences := by
  intro sentences
  induction sentences with
  | nil =>
    intro parts currSeg currWords
    simp [partsLoopAux]
  | cons s rest ih =>
    intro parts currSeg currWords
    have hstepP : partsLoopAux target (s :: rest) parts currSeg currWords =
        (if target ≤ ((currWords + wordCount s : ℕ) : ℚ) then
          partsLoopAux target rest (parts ++ [currSeg ++ [s]]) [] 0
        else partsLoopAux target rest parts (currSeg ++ [s])
          (currWords + wordCount s)) := rfl
    by_cases hc : target ≤ ((currWords + wordCount s : ℕ) : ℚ)
    · rw [hstepP, if_pos hc, ih]
      simp
    · rw [hstepP, if_neg hc, ih]
      simp

/-- The ghost loop only ever flushes nonempty groups. -/
theorem partsLoop_nonempty (target : ℚ) : ∀ (sentences : List Str)
    (parts : List (List Str)) (currSeg : List Str) (currWords : ℕ),
    (∀ p ∈ parts, p ≠ []) →
    ∀ p ∈ (partsLoopAux target sentences parts currSeg currWords).1, p ≠ [] := by
  intro sentences
  induction sentences with
  | nil =>
    intro parts currSeg currWords hp
    simpa [partsLoopAux] using hp
  | cons s rest ih =>
    intro parts currSeg currWords hp
    have hstepP : partsLoopAux target (s :: rest) parts currSeg currWords =
        (if target ≤ ((currWords + wordCount s : ℕ) : ℚ) then
          partsLoopAux target rest (parts ++ [currSeg ++ [s]]) [] 0
        else partsLoopAux target rest parts (currSeg ++ [s])
          (currWords + wordCount s)) := rfl
    by_cases hc : target ≤ ((currWords + wordCount s : ℕ) : ℚ)
    · intro p hpmem
      rw [hstepP, if_pos hc] at hpmem
      refine ih (parts ++ [currSeg ++ [s]]) [] 0 ?_ p hpmem
      intro q hq
      rcases List.mem_append.mp hq with hq1 | hq2
      · exact hp q hq1
      · simp at hq2
        rw [hq2]
        simp
    · intro p hpmem
      rw [hstepP, if_neg hc] at hpmem
      exact ih parts (currSeg ++ [s]) (currWords + wordCount s) hp p hpmem

/-- The ghost groups behind groupSegments, with the trailing merge of
lines 117-121 applied at the group level. -/
def groupParts (target : ℚ) (sentences : List Str) : List (List Str) :=
  match partsLoopAux target sentences [] [] 0 with
  | (parts, currSeg) =>
    if currSeg.isEmpty then parts
    else if hp : parts = [] then [currSeg]
    else parts.dropLast ++ [parts.getLast hp ++ currSeg]

/-- groupSegments is the space-join image of groupParts, whose groups are
nonempty and flatten back to the sentence list. -/
theorem groupSegments_eq_parts (target : ℚ) (sentences : List Str) :
    groupSegments target sentences = (groupParts target sentences).map joinSpace ∧
    (groupParts target sentences).flatten = sentences ∧
    ∀ p ∈ groupParts target sentences, p ≠ [] := by
  have hcorr := segLoop_eq_partsLoop target sentences [] [] 0
  have hne := partsLoop_nonempty target sentences [] [] 0 (by simp)
  have hflat := partsLoop_flatten target sentences [] [] 0
  rcases hPC : partsLoopAux target sentences [] [] 0 with ⟨P, C⟩
  rw [hPC] at hcorr hne hflat
  simp only [List.flatten_nil, List.nil_append] at hflat
  simp only [List.map_nil] at hcorr
  have hgs : groupSegments target sentences =
      (if C.isEmpty then P.map joinSpace
       else if hs : P.map joinSpace = [] then [joinSpace C]
       else (P.map joinSpace).dropLast ++
         [(P.map joinSpace).getLast hs ++ ' ' :: joinSpace C]) := by
    unfold groupSegments
    rw [hcorr]
  have hgp : groupParts target sentences =
      (if C.isEmpty then P else if hp : P = [] then [C]
       else P.dropLast ++ [P.getLast hp ++ C]) := by
    unfold groupParts
    rw [hPC]
  by_cases hC : C.isEmpty
  · rw [hgs, hgp, if_pos hC, if_pos hC]
    have hCnil : C = [] := List.isEmpty_iff.mp hC
    rw [hCnil] at hflat
    simp only [List.append_nil] at hflat
    exact ⟨rfl, hflat, hne⟩
  · have hCne : C ≠ [] := by
      intro hnil
      rw [hnil] at hC
      simp at hC
    rw [hgs, hgp, if_neg hC, if_neg hC]
    by_cases hP : P = []
    · rw [dif_pos hP, dif_pos (show P.map joinSpace = [] by rw [hP]; rfl)]
      rw [hP] at hflat
      simp only [List.flatten_nil, List.nil_append] at hflat
      refine ⟨rfl, by simpa using hflat, ?_⟩
      intro p hp
      have : p = C := by simpa using hp
      rw [this]
      exact hCne
    · have hPm : P.map joinSpace ≠ [] := by
        simpa [List.map_eq_nil_iff] using hP
      rw [dif_neg hP, dif_neg hPm]
      have hlast_ne : P.getLast hP ≠ [] := hne _ (List.getLast_mem hP)
      refine ⟨?_, ?_, ?_⟩
      · rw [List.getLast_map joinSpace P hPm, ← List.map_dropLast]
        rw [List.map_append]
        simp only [List.map_cons, List.map_nil]
        rw [joinSpace_append (P.getLast hP) C hlast_ne hCne]
      · rw [List.flatten_append]
        simp only [List.flatten_cons, List.flatten_nil, List.append_nil]
        have hsplit : P.dropLast.flatten ++ P.getLast hP = P.flatten := by
          conv_rhs => rw [← List.dropLast_append_getLast hP]
          rw [List.flatten_append]
          simp
        rw [← List.append_assoc, hsplit, hflat]
      · intro p hp
        rcases List.mem_append.mp hp with h1 | h2
        · exact hne p (List.mem_of_mem_dropLast h1)
        · have : p = P.getLast hP ++ C := by simpa using h2
          rw [this]
          intro hcontra
          exact hlast_ne (List.append_eq_nil.mp hcontra).1

/-- Space-joining the joined groups equals space-joining the flattened
sentence list, for nonempty groups. -/
theorem joinSpace_map_flatten (parts : List (List Str))
    (h : ∀ p ∈ parts, p ≠ []) :
    joinSpace (parts.map joinSpace) = joinSpace parts.flatten := by
  induction parts with
  | nil => rfl
  | cons p t ih =>
    cases t with
    | nil => simp [joinSpace]
    | cons q t' =>
      have hp : p ≠ [] := h p (by simp)
      have hq : q ≠ [] := h q (by simp)
      have hflatne : (q :: t').flatten ≠ [] := by
        simp only [List.flatten_cons]
        intro hcontra
        exact hq (List.append_eq_nil.mp hcontra).1
      have ih' := ih (fun r hr => h r (by simp [hr]))
      show joinSpace p ++ ' ' :: joinSpace ((q :: t').map joinSpace) =
        joinSpace (p ++ (q :: t').flatten)
      rw [joinSpace_append p ((q :: t').flatten) hp hflatne, ih']

/-- C10: the sentence-grouping step partitions the retained sentences into
contiguous, ordered, nonempty groups — every sentence lands in exactly one
grouped segment, none is duplicated or dropped, and space-joining the
grouped segments reproduces the space-join of the sentences. -/
theorem c10_grouping_is_partition (target : ℚ) (sentences : List Str) :
    ∃ parts : List (List Str),
      parts.flatten = sentences ∧ (∀ p ∈ parts, p ≠ []) ∧
      groupSegments target sentences = parts.map joinSpace ∧
      joinSpace (groupSegments target sentences) = joinSpace sentences := by
  obtain ⟨h1, h2, h3⟩ := groupSegments_eq_parts target sentences
  refine ⟨groupParts target sentences, h2, h3, h1, ?_⟩
  rw [h1, joinSpace_map_flatten _ h3, h2]

/-- Witness for c10_grouping_is_partition at the three-sentence input. -/
theorem c10_grouping_is_partition_witness :
    joinSpace (groupSegments (4 / 5 : ℚ)
      ["One.".toList, "Two.".toList, "Three.".toList]) =
    joinSpace ["One.".toList, "Two.".toList, "Three.".toList] := by
  obtain ⟨parts, h1, h2, h3, h4⟩ := c10_grouping_is_partition (4 / 5 : ℚ)
    ["One.".toList, "Two.".toList, "Three.".toList]
  exact h4

/-- Summing the per-segment durations over any segment list. -/
theorem sum_sentDuration (tw : ℕ) (D : ℚ) (l : List Str) :
    (l.map (sentDuration tw D)).sum = ((l.map wordCount).sum : ℚ) / (tw : ℚ) * D := by
  induction l with
  | nil => simp
  | cons s t ih =>
    simp only [List.map_cons, List.sum_cons, ih, sentDuration]
    push_cast
    ring

/-- C1 counterexample: for the script "Hello world. A." with 6 seconds of
narration, the sentence "A." is discarded, the code divides by the full
script word count 3 and allots 4 seconds to the only segment, so the
durations sum to 4, not 6 — while the spec's retained-word-count formula
would give 6. -/
theorem c1_counterexample :
    segmentsOf "Hello world. A.".toList 6 = ["Hello world.".toList] ∧
    allottedDurations "Hello world. A.".toList 6 = [4] ∧
    (allottedDurations "Hello world. A.".toList 6).sum ≠ 6 ∧
    ((wordCount "Hello world.".toList : ℚ) /
      ((([["Hello world.".toList]].flatten).map wordCount).sum : ℚ)) * 6 = 6 := by
  have hs : sentencesOf "Hello world. A.".toList = ["Hello world.".toList] := by rfl
  have hseg : segmentsOf "Hello world. A.".toList 6 = ["Hello world.".toList] := by
    unfold segmentsOf
    rw [hs]
    norm_num +decide [targetSegmentWords, wordsPerSec, groupSegments, segLoopAux,
      wordCount, joinSpace, totalWords, pysplit, pysplitAux, isWs]
  have hdur : allottedDurations "Hello world. A.".toList 6 = [4] := by
    unfold allottedDurations
    rw [hseg]
    norm_num +decide [sentDuration, wordCount, pysplit, pysplitAux, isWs, totalWords]
  refine ⟨hseg, hdur, ?_, ?_⟩
  · rw [hdur]
    norm_num
  · norm_num +decide [wordCount, pysplit, pysplitAux, isWs]

/-- C1 amended: each segment's allotted duration is its word count divided
by the word count of the whole script (not of the retained sentences),
times the total duration; consequently the allotted durations sum to the
total narration duration exactly when the produced segments together
contain as many words as the whole script (no sentence was discarded). -/
theorem c1_amended (script : Str) (total_duration : ℚ)
    (hall : ((segmentsOf script total_duration).map wordCount).sum =
      totalWords script) :
    (allottedDurations script total_duration).sum = total_duration := by
  unfold allottedDurations
  rw [sum_sentDuration, hall]
  have htw : (totalWords script : ℚ) ≠ 0 := by
    have h1 : 1 ≤ totalWords script := le_max_right _ 1
    simp only [ne_eq, Nat.cast_eq_zero]
    omega
  field_simp

/-- Witness for c1_amended on the three-sentence script, where no word is
discarded and the durations sum to the full 30 seconds. -/
theorem c1_amended_witness :
    (((segmentsOf "One. Two. Three.".toList 30).map wordCount).sum =
      totalWords "One. Two. Three.".toList) ∧
    (allottedDurations "One. Two. Three.".toList 30).sum = 30 :=
  have hall : ((segmentsOf "One. Two. Three.".toList 30).map wordCount).sum =
      totalWords "One. Two. Three.".toList := by
    rw [seg3_eval]
    rfl
  ⟨hall, c1_amended "One. Two. Three.".toList 30 hall⟩

end FVP
